import Mathlib

/-!
Shallow embedding of `src/wave_animation_fdm.ipynb`: a 1-D damped-wave
finite-difference solver.  Real scalars are modelled as rationals, the
solution grid `u_x_t` as a total function `ℕ → ℕ → ℚ` updated by explicit
state passing, mirroring the notebook cell by cell.
-/

namespace WaveFDM

/-- The physical/numerical parameters of the constants cell:
`L`, `c`, `k`, `t_total`, `fps_play`. -/
structure Params where
  L : ℚ
  c : ℚ
  k : ℚ
  t_total : ℚ
  fps : ℚ

/-- `nx = int(L / (c / fps_play))`.  Python `int` truncates toward zero,
which coincides with the floor on the nonnegative arguments the claims
quantify over. -/
def nxP (p : Params) : ℤ := ⌊p.L / (p.c / p.fps)⌋

/-- `dt = t_array[1] - t_array[0]` where `t_array = arange(0, t_total, 1/fps)`,
hence `dt = 1/fps`. -/
def dtP (p : Params) : ℚ := 1 / p.fps

/-- `dx = x_array[1] - x_array[0]` where `x_array = linspace(0, L, nx)`,
hence `dx = L / (nx - 1)`. -/
def dxP (p : Params) : ℚ := p.L / ((nxP p : ℚ) - 1)

/-- `len(t_array)` for `t_array = arange(0, t_total, 1/fps)`:
the number of multiples of `1/fps` in `[0, t_total)`. -/
def ntP (p : Params) : ℤ := ⌈p.t_total * p.fps⌉

/-- The Courant number `c·dt/dx` produced by the constants cell. -/
def cflRatio (p : Params) : ℚ := p.c * dtP p / dxP p

/-- The notebook's own constants: `L = 3`, `c = 1`, `k = 0.2`,
`t_total = 20`, `fps_play = 30`. -/
def nbParams : Params := ⟨3, 1, 1/5, 20, 30⟩

/-- Everything the grid cells of the notebook read: grid shape, physical
constants, step sizes, and the three input functions `f`, `g`, `phi`. -/
structure Config where
  nx : ℕ
  nt : ℕ
  c : ℚ
  k : ℚ
  dx : ℚ
  dt : ℚ
  f : ℚ → ℚ
  g : ℚ → ℚ
  phi : ℚ → ℚ

/-- The space-time solution grid `u_x_t`, indexed `u j l` for spatial
index `j` and time index `l`. -/
def Grid : Type := ℕ → ℕ → ℚ

/-- `x_array[j] = j * dx` (uniform `linspace(0, L, nx)`). -/
def xcoord (C : Config) (j : ℕ) : ℚ := j * C.dx

/-- `t_array[l] = l * dt` (uniform `arange(0, t_total, dt)`). -/
def tcoord (C : Config) (l : ℕ) : ℚ := l * C.dt

/-- `u_x_t = np.zeros((len(x_array), len(t_array)))`. -/
def zeros : Grid := fun _ _ => 0

/-- `u_x_t[:, 0] = f(x_array)`: writes row `l = 0` at every `j < nx`. -/
def writeRow0 (C : Config) (u : Grid) : Grid := fun j l =>
  if j < C.nx ∧ l = 0 then C.f (xcoord C j) else u j l

/-- `u_x_t[:, 1] = g(x_array)*dt + f(x_array)`: writes row `l = 1` at
every `j < nx`. -/
def writeRow1 (C : Config) (u : Grid) : Grid := fun j l =>
  if j < C.nx ∧ l = 1 then C.g (xcoord C j) * C.dt + C.f (xcoord C j) else u j l

/-- `u_x_t[0, :] = phi(t_array)`: writes column `j = 0` at every `l < nt`,
executed after the two initial rows. -/
def writeCol0 (C : Config) (u : Grid) : Grid := fun j l =>
  if j = 0 ∧ l < C.nt then C.phi (tcoord C l) else u j l

/-- The grid as it stands after the initial/boundary-conditions cell:
zero allocation, then row 0, then row 1, then column 0. -/
def seed (C : Config) : Grid := writeCol0 C (writeRow1 C (writeRow0 C zeros))

/-- `factor1 = (1 + k*dt/2)**-1`, computed once before the loop. -/
def factor1 (C : Config) : ℚ := (1 + C.k * C.dt / 2)⁻¹

/-- `factor2 = (c*dt/dx)**2`, computed once before the loop. -/
def factor2 (C : Config) : ℚ := (C.c * C.dt / C.dx) ^ 2

/-- `factor3 = k*dt/2`, computed once before the loop. -/
def factor3 (C : Config) : ℚ := C.k * C.dt / 2

/-- The right-hand side of the update
`factor1 * (factor2*(u[j+1,l] - 2*u[j,l] + u[j-1,l]) + 2*u[j,l]
- u[j,l-1] + factor3*u[j,l-1])`, read from the grid state `u`. -/
def stepVal (C : Config) (u : Grid) (j l : ℕ) : ℚ :=
  factor1 C * (factor2 C * (u (j+1) l - 2 * u j l + u (j-1) l)
    + 2 * u j l - u j (l-1) + factor3 C * u j (l-1))

/-- One iteration of the time loop at time index `l`:
`u_x_t[1:-1, l+1] = ...` writes exactly the interior entries
`1 ≤ j ≤ nx-2` of column `l+1`; the right-hand side is evaluated on the
grid state before the assignment. -/
def stepWrite (C : Config) (l : ℕ) (u : Grid) : Grid := fun j lp =>
  if 1 ≤ j ∧ j + 1 < C.nx ∧ lp = l + 1 then stepVal C u j l else u j lp

/-- The grid after the first `n` iterations of
`for l in range(1, len(t_array)-1)`: iteration `i` (for `1 ≤ i ≤ n`)
runs `stepWrite` at time index `l = i`. -/
def loopAux (C : Config) (u : Grid) : ℕ → Grid
  | 0 => u
  | n + 1 => stepWrite C (n + 1) (loopAux C u n)

/-- The finished grid: seeding cell followed by the full explicit
time-evolution loop, whose `range(1, len(t_array)-1)` has `nt - 2`
iterations. -/
def run (C : Config) : Grid := loopAux C (seed C) (C.nt - 2)

/-- The `Config` induced by the constants cell for parameters `p` and
input functions `f`, `g`, `phi`. -/
def configOf (p : Params) (f g phi : ℚ → ℚ) : Config :=
  { nx := (nxP p).toNat
    nt := (ntP p).toNat
    c := p.c
    k := p.k
    dx := dxP p
    dt := dtP p
    f := f
    g := g
    phi := phi }

/-- The spec's error taxonomy for the configuration phase. -/
inductive ConfigError where
  | nonpositiveParam : ConfigError
  | nxTooSmall : ConfigError
deriving DecidableEq

/-- Modelled from the spec: the notebook's constants cell performs no
validation, so the validating configuration phase of spec §4.1/§7
("Fails with a ConfigurationError if nx < 3 ..., or if L, c, T, fps are
not strictly positive", detected before allocation) is written here from
the spec's words, to be compared with the unvalidated code path. -/
def configSpec (p : Params) : Except ConfigError (ℤ × ℤ × ℚ × ℚ) :=
  if p.L ≤ 0 ∨ p.c ≤ 0 ∨ p.t_total ≤ 0 ∨ p.fps ≤ 0 then
    Except.error ConfigError.nonpositiveParam
  else if nxP p < 3 then Except.error ConfigError.nxTooSmall
  else Except.ok (nxP p, ntP p, dxP p, dtP p)

/-! Small concrete configurations used to exercise the theorems. -/

/-- A 3-by-4 grid with nontrivial `f`, `g`, `phi` and damping `k = 1/2`. -/
def stepCfg : Config := ⟨3, 4, 1, 1/2, 1, 1, fun x => x, fun x => 2 - x, fun _ => 1⟩

/-- A 3-by-3 grid whose boundary forcing disagrees with `f` at the
corner: `f ≡ 0` but `phi ≡ 1`. -/
def cornerCfg : Config := ⟨3, 3, 1, 0, 1, 1, fun _ => 0, fun _ => 0, fun _ => 1⟩

/-- A 3-by-3 grid whose initial displacement does not vanish at the far
end: `f ≡ 1`. -/
def lastColCfg : Config := ⟨3, 3, 1, 0, 1, 1, fun _ => 1, fun _ => 0, fun _ => 0⟩

/-- All-zero input functions on a 3-by-4 grid. -/
def zeroCfg : Config := ⟨3, 4, 1, 1/2, 1, 1, fun _ => 0, fun _ => 0, fun _ => 0⟩

/-- Two runs identical except for the boundary forcing `phi`. -/
def phiCfgA : Config := ⟨3, 3, 1, 0, 1, 1, fun x => x, fun x => 2 * x, fun _ => 1⟩

/-- Same as `phiCfgA` with a different boundary forcing. -/
def phiCfgB : Config := ⟨3, 3, 1, 0, 1, 1, fun x => x, fun x => 2 * x, fun _ => 42⟩

/-- Strictly positive parameters whose derived `nx` is `2 < 3`:
`L = 2`, `c = 1`, `k = 0`, `t_total = 2`, `fps = 1`. -/
def p6 : Params := ⟨2, 1, 0, 2, 1⟩

/-- The configuration the constants cell derives from `p6`, with
constant input functions `f ≡ 5`, `g ≡ 2`, `phi ≡ 1`. -/
def cfg6 : Config := configOf p6 (fun _ => 5) (fun _ => 2) (fun _ => 1)

/-! Helper lemmas: what the time loop can and cannot touch. -/

/-- The loop never writes a spatial index outside the interior
`1 ≤ j ≤ nx - 2`. -/
theorem loopAux_not_interior (C : Config) (u : Grid) (n j l : ℕ)
    (h : ¬(1 ≤ j ∧ j + 1 < C.nx)) : loopAux C u n j l = u j l := by
  induction n with
  | zero => rfl
  | succ n ih =>
    simp only [loopAux, stepWrite]
    rw [if_neg, ih]
    intro hc
    exact h ⟨hc.1, hc.2.1⟩

/-- The loop never writes the two seeded rows `l = 0` and `l = 1`. -/
theorem loopAux_early (C : Config) (u : Grid) (n j l : ℕ) (h : l ≤ 1) :
    loopAux C u n j l = u j l := by
  induction n with
  | zero => rfl
  | succ n ih =>
    simp only [loopAux, stepWrite]
    rw [if_neg, ih]
    rintro ⟨-, -, rfl⟩
    omega

/-- After iteration `n` (which has produced columns up to `n + 1`),
later iterations leave every column `l ≤ n + 1` unchanged: no entry is
written twice. -/
theorem loopAux_stable (C : Config) (u : Grid) (j l : ℕ) {n m : ℕ}
    (hnm : n ≤ m) (hl : l ≤ n + 1) :
    loopAux C u m j l = loopAux C u n j l := by
  induction m, hnm using Nat.le_induction with
  | base => rfl
  | succ m hm ih =>
    simp only [loopAux, stepWrite]
    rw [if_neg, ih]
    rintro ⟨-, -, rfl⟩
    omega

/-- `stepVal` only reads columns `l` and `l - 1`. -/
theorem stepVal_congr (C : Config) (u v : Grid) (j l : ℕ)
    (h : ∀ j' l', l' ≤ l → u j' l' = v j' l') :
    stepVal C u j l = stepVal C v j l := by
  unfold stepVal
  rw [h (j+1) l le_rfl, h j l le_rfl, h (j-1) l le_rfl, h j (l-1) (Nat.sub_le l 1)]

/-! Helper lemmas: the seeded grid, cell by cell. -/

/-- Column `j = 0` of the seeded grid holds `phi(t_l)`: the boundary
write comes after the two initial-row writes. -/
theorem seed_col0 (C : Config) (l : ℕ) (hl : l < C.nt) :
    seed C 0 l = C.phi (tcoord C l) := by
  simp [seed, writeCol0, hl]

/-- Row `l = 0` of the seeded grid away from the boundary column. -/
theorem seed_row0 (C : Config) (j : ℕ) (hj : j ≠ 0) :
    seed C j 0 = if j < C.nx then C.f (xcoord C j) else 0 := by
  simp [seed, writeCol0, writeRow1, writeRow0, zeros, hj]

/-- Row `l = 1` of the seeded grid away from the boundary column. -/
theorem seed_row1 (C : Config) (j : ℕ) (hj : j ≠ 0) :
    seed C j 1 = if j < C.nx then C.g (xcoord C j) * C.dt + C.f (xcoord C j) else 0 := by
  simp [seed, writeCol0, writeRow1, writeRow0, zeros, hj]

/-- The seeded grid is untouched above the two initial rows, off the
forced column: row writes target `l ∈ {0, 1}` only and the boundary
write targets `j = 0` only, so the zero allocation shows through. -/
theorem seed_rest (C : Config) (j l : ℕ) (hj : j ≠ 0) (hl : 2 ≤ l) :
    seed C j l = 0 := by
  have h0 : l ≠ 0 := by omega
  have h1 : l ≠ 1 := by omega
  simp [seed, writeCol0, writeRow1, writeRow0, zeros, hj, h0, h1]

/-- The finished grid agrees with the seeded grid at every entry the
loop cannot write. -/
theorem run_eq_seed_of_not_interior (C : Config) (j l : ℕ)
    (h : ¬(1 ≤ j ∧ j + 1 < C.nx) ∨ l ≤ 1) :
    run C j l = seed C j l := by
  rcases h with h | h
  · exact loopAux_not_interior C (seed C) (C.nt - 2) j l h
  · exact loopAux_early C (seed C) (C.nt - 2) j l h

/-- Interior characterization: for `1 ≤ l ≤ nt - 2` the loop body is the
unique write of entry `(j, l+1)`, and its reads are final values. -/
theorem run_interior (C : Config) (j l : ℕ)
    (hj1 : 1 ≤ j) (hj2 : j + 1 < C.nx) (hl1 : 1 ≤ l) (hl2 : l ≤ C.nt - 2) :
    run C j (l + 1) = stepVal C (run C) j l := by
  obtain ⟨m, rfl⟩ : ∃ m, l = m + 1 := ⟨l - 1, by omega⟩
  have hstep : run C j (m + 1 + 1) = stepVal C (loopAux C (seed C) m) j (m + 1) := by
    rw [run, loopAux_stable C (seed C) j (m + 1 + 1) hl2 le_rfl]
    simp only [loopAux, stepWrite]
    rw [if_pos ⟨hj1, hj2, trivial⟩]
  rw [hstep]
  refine stepVal_congr C _ _ j (m + 1) fun j' l' hl' => ?_
  rw [run, loopAux_stable C (seed C) j' l' (by omega : m ≤ C.nt - 2) (by omega)]

/-! Claim theorems. -/

/-- C1: the claim asserts `c·dt/dx = 1` exactly for the computed
discretization.  At the notebook's own constants (`L = 3`, `c = 1`,
`fps = 30`, annotated in the source as "CFL condition with equality")
the computed Courant number is `89/90`, not `1`: `nx = int(L·fps/c) = 90`
points make `dx = L/89`, so `c·dt/dx = 89/90`.  The code misses its own
documented equality. -/
theorem cfl_ratio_not_one :
    cflRatio nbParams = 89 / 90 ∧ cflRatio nbParams ≠ 1 := by
  have h : cflRatio nbParams = 89 / 90 := by
    norm_num [cflRatio, nxP, dxP, dtP, nbParams]
  refine ⟨h, ?_⟩
  rw [h]
  norm_num

/-- C2: for `1 ≤ l ≤ nt-2` and interior `1 ≤ j ≤ nx-2`, the finished
grid satisfies
`u[j,l+1] = factor1·(factor2·(u[j+1,l] - 2u[j,l] + u[j-1,l]) + 2u[j,l]
- u[j,l-1] + factor3·u[j,l-1])`, with the three factors constants of the
whole run; the entry depends only on the four listed neighbours. -/
theorem interior_recurrence (C : Config) (j l : ℕ)
    (hj1 : 1 ≤ j) (hj2 : j ≤ C.nx - 2) (hl1 : 1 ≤ l) (hl2 : l ≤ C.nt - 2) :
    run C j (l + 1)
      = factor1 C * (factor2 C * (run C (j+1) l - 2 * run C j l + run C (j-1) l)
        + 2 * run C j l - run C j (l-1) + factor3 C * run C j (l-1)) :=
  run_interior C j l hj1 (by omega) hl1 hl2

/-- Witness for C2 at `stepCfg`, `j = 1`, `l = 1`. -/
theorem interior_recurrence_check :
    ((1:ℕ) ≤ 1 ∧ 1 ≤ stepCfg.nx - 2 ∧ 1 ≤ stepCfg.nt - 2)
    ∧ run stepCfg 1 2
      = factor1 stepCfg * (factor2 stepCfg *
          (run stepCfg 2 1 - 2 * run stepCfg 1 1 + run stepCfg 0 1)
        + 2 * run stepCfg 1 1 - run stepCfg 1 0 + factor3 stepCfg * run stepCfg 1 0) :=
  ⟨⟨le_rfl, by decide, by decide⟩,
    interior_recurrence stepCfg 1 1 le_rfl (by decide) le_rfl (by decide)⟩

/-- C3 counterexample: the claim includes `j = 0`, but the boundary
write `u[0,:] = phi(t_array)` runs after the initial rows, so with
`f ≡ 0` and `phi ≡ 1` the corner holds `phi(t_0) = 1 ≠ 0 = f(x_0)`. -/
theorem initial_rows_counterexample :
    run cornerCfg 0 0 ≠ cornerCfg.f (xcoord cornerCfg 0) := by
  have h : run cornerCfg 0 0 = 1 := by
    rw [run_eq_seed_of_not_interior cornerCfg 0 0 (Or.inr (by omega)),
      seed_col0 cornerCfg 0 (by decide)]
    norm_num [cornerCfg]
  rw [h]
  norm_num [cornerCfg]

/-- C3 amended: after the run, `u[j,0] = f(x_j)` and
`u[j,1] = g(x_j)·dt + f(x_j)` for every spatial index `j ≥ 1`
(including `j = nx-1`), for arbitrary `f`, `g`, `phi`; at `j = 0` the
later boundary write wins. -/
theorem initial_rows (C : Config) (j : ℕ)
    (hj : 1 ≤ j) (hjx : j < C.nx) (hnt : 2 ≤ C.nt) :
    run C j 0 = C.f (xcoord C j)
    ∧ run C j 1 = C.g (xcoord C j) * C.dt + C.f (xcoord C j) := by
  have hj0 : j ≠ 0 := by omega
  constructor
  · rw [run_eq_seed_of_not_interior C j 0 (Or.inr (by omega)),
      seed_row0 C j hj0, if_pos hjx]
  · rw [run_eq_seed_of_not_interior C j 1 (Or.inr le_rfl),
      seed_row1 C j hj0, if_pos hjx]

/-- Witness for C3's amended statement at `stepCfg`, `j = 1`. -/
theorem initial_rows_check :
    ((1:ℕ) ≤ 1 ∧ 1 < stepCfg.nx ∧ 2 ≤ stepCfg.nt)
    ∧ run stepCfg 1 0 = stepCfg.f (xcoord stepCfg 1)
    ∧ run stepCfg 1 1 = stepCfg.g (xcoord stepCfg 1) * stepCfg.dt
        + stepCfg.f (xcoord stepCfg 1) :=
  ⟨⟨le_rfl, by decide, by decide⟩, initial_rows stepCfg 1 le_rfl (by decide) (by decide)⟩

/-- C4 counterexample: the claim says column `j = nx-1` is never
written and stays `0` for arbitrary `f`, `g`, `phi`; but the full-row
writes `u[:,0]` and `u[:,1]` include `j = nx-1`, so with `f ≡ 1` the
entry `u[nx-1,0]` is `1`, not `0`. -/
theorem last_column_counterexample :
    run lastColCfg (lastColCfg.nx - 1) 0 ≠ 0 := by
  have h : run lastColCfg (lastColCfg.nx - 1) 0 = 1 := by
    rw [show lastColCfg.nx - 1 = 2 from rfl,
      run_eq_seed_of_not_interior lastColCfg 2 0 (Or.inr (by omega)),
      seed_row0 lastColCfg 2 (by omega)]
    norm_num [lastColCfg]
  rw [h]
  norm_num

/-- C4 amended: the stepper never writes column `j = nx-1`, so every
entry with `l ≥ 2` keeps its zero allocation; but the two seeded rows do
write it, leaving `u[nx-1,0] = f(x_{nx-1})` and
`u[nx-1,1] = g(x_{nx-1})·dt + f(x_{nx-1})`, so the whole column is zero
only when those two values vanish (as with the notebook's `f = g = 0`),
not for arbitrary `f`, `g`. -/
theorem last_column (C : Config) (hnx : 2 ≤ C.nx) (hnt : 2 ≤ C.nt) :
    (∀ l, 2 ≤ l → run C (C.nx - 1) l = 0)
    ∧ run C (C.nx - 1) 0 = C.f (xcoord C (C.nx - 1))
    ∧ run C (C.nx - 1) 1 = C.g (xcoord C (C.nx - 1)) * C.dt
        + C.f (xcoord C (C.nx - 1)) := by
  have hj0 : C.nx - 1 ≠ 0 := by omega
  refine ⟨fun l hl => ?_, ?_, ?_⟩
  · rw [run_eq_seed_of_not_interior C _ l (Or.inl (by omega)),
      seed_rest C _ l hj0 hl]
  · rw [run_eq_seed_of_not_interior C _ 0 (Or.inr (by omega)),
      seed_row0 C _ hj0, if_pos (by omega)]
  · rw [run_eq_seed_of_not_interior C _ 1 (Or.inr le_rfl),
      seed_row1 C _ hj0, if_pos (by omega)]

/-- Witness for C4's amended statement at `lastColCfg`. -/
theorem last_column_check :
    ((2:ℕ) ≤ lastColCfg.nx ∧ 2 ≤ lastColCfg.nt)
    ∧ run lastColCfg (lastColCfg.nx - 1) 2 = 0
    ∧ run lastColCfg (lastColCfg.nx - 1) 0
        = lastColCfg.f (xcoord lastColCfg (lastColCfg.nx - 1)) :=
  ⟨⟨by decide, by decide⟩,
    (last_column lastColCfg (by decide) (by decide)).1 2 le_rfl,
    (last_column lastColCfg (by decide) (by decide)).2.1⟩

/-- C5: after the run, `u[0,l] = phi(t_l)` for every `l < nt`: the
column is written once by the seeding cell and the stepper, which only
writes `1 ≤ j ≤ nx-2`, never modifies it. -/
theorem forcing_column (C : Config) (hnx : 1 ≤ C.nx) (l : ℕ) (hl : l < C.nt) :
    run C 0 l = C.phi (tcoord C l) := by
  rw [run_eq_seed_of_not_interior C 0 l (Or.inl (by omega)), seed_col0 C l hl]

/-- Witness for C5 at `stepCfg`, `l = 3`. -/
theorem forcing_column_check :
    ((1:ℕ) ≤ stepCfg.nx ∧ 3 < stepCfg.nt)
    ∧ run stepCfg 0 3 = stepCfg.phi (tcoord stepCfg 3) :=
  ⟨⟨by decide, by decide⟩, forcing_column stepCfg (by decide) 3 (by decide)⟩

/-- C6 counterexample: at `p6` every parameter is strictly positive and
the derived `nx = 2 < 3`, so the spec-modelled configuration phase
rejects the run; but the notebook performs no validation at all: the
run completes and produces the full 2-by-2 grid. -/
theorem config_never_fails :
    (0 < p6.L ∧ 0 < p6.c ∧ 0 < p6.t_total ∧ 0 < p6.fps)
    ∧ nxP p6 = 2
    ∧ configSpec p6 = Except.error ConfigError.nxTooSmall
    ∧ run cfg6 0 0 = 1 ∧ run cfg6 1 0 = 5 ∧ run cfg6 0 1 = 1 ∧ run cfg6 1 1 = 7 := by
  have hnx : nxP p6 = 2 := by norm_num [nxP, p6]
  have hnt : ntP p6 = 2 := by norm_num [ntP, p6]
  have hx : cfg6.nx = 2 := by simp [cfg6, configOf, hnx]
  have ht : cfg6.nt = 2 := by simp [cfg6, configOf, hnt]
  refine ⟨⟨by norm_num [p6], by norm_num [p6], by norm_num [p6], by norm_num [p6]⟩,
    hnx, ?_, ?_, ?_, ?_, ?_⟩
  · rw [configSpec, if_neg (by norm_num [p6]), if_pos (by rw [hnx]; norm_num)]
  all_goals
    simp [run, ht, loopAux, seed, writeCol0, writeRow1, writeRow0, zeros, hx]
    norm_num [cfg6, configOf, dtP, p6]

/-- C6 amended: the constants cell performs no validation and the
source defines no ConfigurationError; with `p6` (all parameters
positive, derived `nx = 2 < 3`) the run is total, its loop writes
nothing (a 2-point grid has no interior), and the finished grid is
exactly the seeded grid, for every `f`, `g`, `phi`. -/
theorem config_no_validation (f g phi : ℚ → ℚ) (j l : ℕ) :
    run (configOf p6 f g phi) j l = seed (configOf p6 f g phi) j l := by
  have hnt : ntP p6 = 2 := by norm_num [ntP, p6]
  have ht : (configOf p6 f g phi).nt = 2 := by simp [configOf, hnt]
  rw [run, ht]
  rfl

/-- C7: the stepping loop writes only interior entries: every entry in
the boundary columns `j = 0`, `j = nx-1` or the seeded rows `l ≤ 1`
retains exactly its seeded value, and each interior entry `(j, l+1)`
carries the recurrence value computed from the finished grid — it is
written once and never overwritten. -/
theorem stepper_frame (C : Config) :
    (∀ j l, j < C.nx → l < C.nt → (j = 0 ∨ j = C.nx - 1 ∨ l ≤ 1) →
      run C j l = seed C j l)
    ∧ ∀ j l, 1 ≤ j → j ≤ C.nx - 2 → 1 ≤ l → l ≤ C.nt - 2 →
      run C j (l + 1) = stepVal C (run C) j l := by
  constructor
  · rintro j l hj hl (rfl | hcase | hcase)
    · exact run_eq_seed_of_not_interior C 0 l (Or.inl (by omega))
    · exact run_eq_seed_of_not_interior C j l (Or.inl (by omega))
    · exact run_eq_seed_of_not_interior C j l (Or.inr hcase)
  · intro j l hj1 hj2 hl1 hl2
    exact run_interior C j l hj1 (by omega) hl1 hl2

/-- Witness for C7 at `stepCfg`: the boundary entry `(0, 2)` keeps its
seeded value. -/
theorem stepper_frame_check :
    ((0:ℕ) < stepCfg.nx ∧ 2 < stepCfg.nt)
    ∧ run stepCfg 0 2 = seed stepCfg 0 2 :=
  ⟨⟨by decide, by decide⟩,
    (stepper_frame stepCfg).1 0 2 (by decide) (by decide) (Or.inl rfl)⟩

/-- C8: if `f`, `g` and `phi` are identically zero, every entry of the
finished grid is zero. -/
theorem zero_input_zero_grid (C : Config)
    (hf : ∀ x, C.f x = 0) (hg : ∀ x, C.g x = 0) (hphi : ∀ t, C.phi t = 0) :
    ∀ j l, run C j l = 0 := by
  have hseed : ∀ j l, seed C j l = 0 := by
    intro j l
    simp [seed, writeCol0, writeRow1, writeRow0, zeros, hf, hg, hphi]
  have hloop : ∀ n j l, loopAux C (seed C) n j l = 0 := by
    intro n
    induction n with
    | zero => exact hseed
    | succ n ih =>
      intro j l
      simp only [loopAux, stepWrite]
      split
      · simp [stepVal, ih]
      · exact ih j l
  exact fun j l => hloop (C.nt - 2) j l

/-- Witness for C8 at `zeroCfg`, entry `(1, 2)`. -/
theorem zero_input_zero_grid_check :
    ((∀ x : ℚ, zeroCfg.f x = 0) ∧ (∀ x : ℚ, zeroCfg.g x = 0)
      ∧ (∀ t : ℚ, zeroCfg.phi t = 0))
    ∧ run zeroCfg 1 2 = 0 :=
  ⟨⟨fun _ => rfl, fun _ => rfl, fun _ => rfl⟩,
    zero_input_zero_grid zeroCfg (fun _ => rfl) (fun _ => rfl) (fun _ => rfl) 1 2⟩

/-- C9: two runs that agree on everything except the boundary forcing
`phi` have identical rows `l = 0` and `l = 1` at every `j ≥ 1`: the
initial rows depend only on `f` and `g` there. -/
theorem rows_independent_of_phi (C D : Config)
    (hnx : D.nx = C.nx) (hnt : D.nt = C.nt) (hc : D.c = C.c) (hk : D.k = C.k)
    (hdx : D.dx = C.dx) (hdt : D.dt = C.dt) (hf : D.f = C.f) (hg : D.g = C.g)
    (j : ℕ) (hj : 1 ≤ j) :
    run C j 0 = run D j 0 ∧ run C j 1 = run D j 1 := by
  have hj0 : j ≠ 0 := by omega
  constructor
  · rw [run_eq_seed_of_not_interior C j 0 (Or.inr (by omega)),
      run_eq_seed_of_not_interior D j 0 (Or.inr (by omega)),
      seed_row0 C j hj0, seed_row0 D j hj0]
    simp only [xcoord]
    rw [hnx, hf, hdx]
  · rw [run_eq_seed_of_not_interior C j 1 (Or.inr le_rfl),
      run_eq_seed_of_not_interior D j 1 (Or.inr le_rfl),
      seed_row1 C j hj0, seed_row1 D j hj0]
    simp only [xcoord]
    rw [hnx, hf, hg, hdx, hdt]

/-- Witness for C9: `phiCfgA` and `phiCfgB` differ only in `phi` (their
forcings disagree at `t = 0`), yet rows 0 and 1 agree at `j = 1`. -/
theorem rows_independent_of_phi_check :
    (phiCfgB.nx = phiCfgA.nx ∧ phiCfgB.f = phiCfgA.f ∧ phiCfgB.g = phiCfgA.g
      ∧ phiCfgB.phi ≠ phiCfgA.phi)
    ∧ run phiCfgA 1 0 = run phiCfgB 1 0 ∧ run phiCfgA 1 1 = run phiCfgB 1 1 :=
  ⟨⟨rfl, rfl, rfl, fun h => by
      have h0 := congrFun h 0
      norm_num [phiCfgA, phiCfgB] at h0⟩,
    rows_independent_of_phi phiCfgA phiCfgB rfl rfl rfl rfl rfl rfl rfl rfl 1 le_rfl⟩

/-- C10: the boundary write `u[0,:] = phi(t_array)` executes after the
initial rows, so the corner entries are `phi(t_0)` and `phi(t_1)` for
every `f`, `g`, `phi` — the boundary value takes precedence at `j = 0`. -/
theorem corner_phi_precedence (C : Config) (hnt : 2 ≤ C.nt) :
    run C 0 0 = C.phi (tcoord C 0) ∧ run C 0 1 = C.phi (tcoord C 1) := by
  constructor
  · rw [run_eq_seed_of_not_interior C 0 0 (Or.inl (by omega)),
      seed_col0 C 0 (by omega)]
  · rw [run_eq_seed_of_not_interior C 0 1 (Or.inl (by omega)),
      seed_col0 C 1 (by omega)]

/-- Witness for C10 at `cornerCfg`, where `phi(t_0) = 1 ≠ 0 = f(x_0)`. -/
theorem corner_phi_precedence_check :
    (2:ℕ) ≤ cornerCfg.nt
    ∧ run cornerCfg 0 0 = cornerCfg.phi (tcoord cornerCfg 0)
    ∧ run cornerCfg 0 1 = cornerCfg.phi (tcoord cornerCfg 1) :=
  ⟨by decide, corner_phi_precedence cornerCfg (by decide)⟩

end WaveFDM
